import Mathlib

/-!
Verification development for the `starry_process` moment-composition and
inference engine.

The repository's core (`starry_process/sp.py`, `starry_gp/transforms.py`) is
shallowly embedded below.  Machine floating-point numbers are modelled by
exact real numbers; the IEEE special values `+inf`, `-inf` and `nan`, which
the code manipulates deliberately (`Sig * np.inf`, the `isnan` guard in
`log_likelihood`), are modelled by the four-constructor type `Fval`.

The repository modules `starry_process/math.py` (Cholesky factor-and-solve),
`starry_process/flux.py` (the flux projector), the compiled `AlphaBetaOp`
series op, and the external `scipy.linalg.eigh` routine are not part of the
sources being verified; they are modelled from the spec's description of
their interfaces (see the individual doc comments).
-/

open Matrix
open scoped Classical

noncomputable section

namespace StarryProcessSpec

/-- Model of an IEEE double as used by the engine: an exact finite real,
one of the two infinities, or `nan`. -/
inductive Fval where
  | fin : ℝ → Fval
  | pinf : Fval
  | ninf : Fval
  | nan : Fval

/-- Whether the value is finite. -/
def Fval.isFin : Fval → Bool
  | .fin _ => true
  | _ => false

/-- Whether the value is `nan`. -/
def Fval.isnan : Fval → Bool
  | .nan => true
  | _ => false

/-- The real number carried by a finite value (junk `0` otherwise). -/
def Fval.toReal : Fval → ℝ
  | .fin x => x
  | _ => 0

/-- IEEE-754 addition on modelled doubles. -/
def Fval.add : Fval → Fval → Fval
  | .nan, _ => .nan
  | _, .nan => .nan
  | .fin x, .fin y => .fin (x + y)
  | .fin _, .pinf => .pinf
  | .fin _, .ninf => .ninf
  | .pinf, .fin _ => .pinf
  | .ninf, .fin _ => .ninf
  | .pinf, .pinf => .pinf
  | .ninf, .ninf => .ninf
  | .pinf, .ninf => .nan
  | .ninf, .pinf => .nan

/-- IEEE-754 product `x * (+inf)` of a finite real with positive infinity:
positive values give `+inf`, negative values give `-inf`, and zero gives
`nan`.  This is what `Sig * np.inf` computes entrywise in `_normalize`. -/
def Fval.mulInf (x : ℝ) : Fval :=
  if 0 < x then .pinf else if x < 0 then .ninf else .nan

/-- A lower-triangular matrix with positive diagonal whose Gram product is
`A`, i.e. a Cholesky factor of `A`. -/
def IsCholeskyFactor {K : ℕ} (L A : Matrix (Fin K) (Fin K) ℝ) : Prop :=
  (∀ a b : Fin K, a < b → L a b = 0) ∧ (∀ a : Fin K, 0 < L a a) ∧ L * Lᵀ = A

/-- Modelled from the spec: `cho_factor` lives in the repository's
`starry_process/math.py`, which is not among the sources; the spec states
that all factorizations are lower-triangular Cholesky factorizations
("Factor via Cholesky", "All inversions performed via Cholesky
factor-and-solve").  When no Cholesky factor exists the code's factorization
fails (producing `nan`s downstream); the junk value `0` returned here is
only ever used behind a guard that checks for that failure. -/
def cho_factor {K : ℕ} (A : Matrix (Fin K) (Fin K) ℝ) : Matrix (Fin K) (Fin K) ℝ :=
  if h : ∃ L, IsCholeskyFactor L A then h.choose else 0

/-- Modelled from the spec: `cho_solve L b` (from `starry_process/math.py`,
not among the sources) solves `(L * Lᵀ) x = b` given the Cholesky factor
`L`. -/
def cho_solve {K : ℕ} (L : Matrix (Fin K) (Fin K) ℝ) (b : Fin K → ℝ) : Fin K → ℝ :=
  (L * Lᵀ)⁻¹ *ᵥ b

/-- Modelled from the spec: matrix-right-hand-side version of `cho_solve`. -/
def cho_solveM {K m : ℕ} (L : Matrix (Fin K) (Fin K) ℝ) (B : Matrix (Fin K) (Fin m) ℝ) :
    Matrix (Fin K) (Fin m) ℝ :=
  (L * Lᵀ)⁻¹ * B

/-- Embedding of `eigen` from `starry_gp/transforms.py`.  The call
`w, U = eigh(Q, subset_by_index=(N - n, N - 1))` to the external
`scipy.linalg.eigh` routine is modelled by passing its outputs `V` (the
`N x n` eigenvector matrix) and `w` (the selected eigenvalues, which scipy
returns in ascending order) as arguments; the function then forms
`U = V @ diag(sqrt(max(0, w)))` and reverses the columns (`U[:, ::-1]`). -/
def eigen {N n : ℕ} (V : Matrix (Fin N) (Fin n) ℝ) (w : Fin n → ℝ) :
    Matrix (Fin N) (Fin n) ℝ :=
  fun i j => (V * Matrix.diagonal (fun k => Real.sqrt (max 0 (w k)))) i (Fin.rev j)

/-- Embedding of `get_alpha_beta` from `starry_gp/transforms.py`: derive the
shape parameters of a Beta distribution from its mean `mu` and normalized
variance `nu`; the two `assert` statements become error results. -/
def get_alpha_beta (mu nu : ℝ) : Except String (ℝ × ℝ) :=
  if 0 < mu ∧ mu < 1 then
    if 0 < nu ∧ nu < 1 then
      .ok (mu * (1 / nu - 1), (1 - mu) * (1 / nu - 1))
    else .error "variance must be in (0, 1)."
  else .error "mean must be in (0, 1)."

/-- Modelled from the spec: the flux projector (`FluxIntegral`, from
`starry_process/flux.py`, not among the sources) is the external collaborator
mapping coefficient-space moments plus observing geometry to light-curve
moments and a linear design matrix; only its interface is consumed
(`mean`, `cov`, `design_matrix`). -/
structure FluxModel where
  mean : (K : ℕ) → (Fin K → ℝ) → ℝ → ℝ → (ℕ → ℝ) → Fin K → ℝ
  cov : (K : ℕ) → (Fin K → ℝ) → ℝ → ℝ → (ℕ → ℝ) → Matrix (Fin K) (Fin K) ℝ
  design : (K : ℕ) → (Fin K → ℝ) → ℝ → ℝ → (ℕ → ℝ) → Fin K → ℕ → ℝ

/-- Embedding of the state of a `StarryProcess` instance (`sp.py`).
Coefficient-space vectors and matrices are modelled as `ℕ`-indexed
functions, of which the first `nylm = (ydeg + 1)^2` entries are meaningful;
this lets processes of different degree inhabit one type, as required to
state the composition-compatibility checks.  The compiled series op
`AlphaBetaOp` (`self._get_alpha_beta`, not among the sources) is modelled
from the spec as a pure function `z -> (alpha, beta)` stored in the field
`alphaBetaOp`; the temporal kernel callable is the field `temporal_kernel`.
The derived caches `_cho_cov_ylm`, `_LInv`, `_LInvmu` are recomputed from
the moments (defs `cho_cov_ylm`, `LInv`, `LInvmu` below) rather than
stored.  The children list of a sum and the shared random stream are not
modelled; randomness enters only through explicit draw arguments. -/
structure StarryProcess where
  ydeg : ℕ
  udeg : ℕ
  nylm : ℕ
  covpts : ℕ
  normalized : Bool
  marginalize_over_inclination : Bool
  time_variable : Bool
  tau : ℝ
  temporal_kernel : (K : ℕ) → (Fin K → ℝ) → (Fin K → ℝ) → ℝ → Matrix (Fin K) (Fin K) ℝ
  normzmax : ℝ
  alphaBetaOp : ℝ → ℝ × ℝ
  mean_ylm : ℕ → ℝ
  cov_ylm : ℕ → ℕ → ℝ
  flux : FluxModel

/-- The `data_cov` argument of `log_likelihood` and
`sample_ylm_conditional`: a scalar, a vector, or a full matrix (the code
dispatches on `data_cov.ndim`). -/
inductive DataCov (K : ℕ) where
  | scalar : ℝ → DataCov K
  | vec : (Fin K → ℝ) → DataCov K
  | mat : Matrix (Fin K) (Fin K) ℝ → DataCov K

/-- The data covariance `C` built by `log_likelihood` (sp.py lines 827-833)
and `sample_ylm_conditional` (lines 560-566): a scalar `data_cov` broadcasts
to `data_cov * eye(K)`, a vector becomes `diag(data_cov)`, and a matrix is
used as-is. -/
def buildC {K : ℕ} : DataCov K → Matrix (Fin K) (Fin K) ℝ
  | .scalar s => s • (1 : Matrix (Fin K) (Fin K) ℝ)
  | .vec v => Matrix.diagonal v
  | .mat M => M

/-- `tt.mean(Sig)`: the elementwise average over all `K * K` entries. -/
def matMean {K : ℕ} (Sig : Matrix (Fin K) (Fin K) ℝ) : ℝ :=
  (∑ a, ∑ b, Sig a b) / ((K : ℝ) * K)

/-- Embedding of `StarryProcess._normalize` (sp.py lines 641-663), the
series expansion of the normalized covariance matrix.  `ab` is the process's
`_get_alpha_beta` op and `zmax` its `_normzmax`.  When the expansion
parameter `z` exceeds `zmax` the code returns `Sig * np.inf`, an IEEE
elementwise product with positive infinity. -/
def normalizeCov (zmax : ℝ) (ab : ℝ → ℝ × ℝ) (mu : ℝ) {K : ℕ}
    (Sig : Matrix (Fin K) (Fin K) ℝ) : Matrix (Fin K) (Fin K) Fval :=
  let m := matMean Sig
  let q : Fin K → ℝ := fun a => (∑ b, Sig a b) / ((K : ℝ) * m)
  let z := m / mu ^ 2
  let pv : Fin K → ℝ := fun a => 1 - q a
  let alpha := (ab z).1
  let beta := (ab z).2
  if zmax < z then
    fun a b => Fval.mulInf (Sig a b)
  else
    fun a b => .fin ((alpha / mu ^ 2) * Sig a b +
      z * ((alpha + beta) * (pv a * pv b) - alpha * (q a * q b)))

namespace StarryProcess

/-- The pre-normalization light-curve covariance: `self._flux.cov(t, i, p, u)`,
multiplied elementwise by the temporal kernel when the process is
time-variable (sp.py lines 630-632 and 636-638). -/
def covSig (p : StarryProcess) {K : ℕ} (t : Fin K → ℝ) (i per : ℝ) (u : ℕ → ℝ) :
    Matrix (Fin K) (Fin K) ℝ :=
  let c := p.flux.cov K t i per u
  if p.time_variable then fun a b => c a b * p.temporal_kernel K t t p.tau a b else c

/-- The scalar mean level `1.0 + self._flux.mean(t, i, p, u)[0]` passed to
`_normalize` (sp.py line 633-634); the indexing presumes a nonempty time
array. -/
def normMu (p : StarryProcess) {K : ℕ} (t : Fin K → ℝ) (i per : ℝ) (u : ℕ → ℝ) : ℝ :=
  if h : 0 < K then 1 + p.flux.mean K t i per u ⟨0, h⟩ else 1

/-- Embedding of `StarryProcess.mean` (sp.py lines 594-611): the GP flux
mean vector, identically zero when the process is normalized. -/
def mean (p : StarryProcess) {K : ℕ} (t : Fin K → ℝ) (i per : ℝ) (u : ℕ → ℝ) :
    Fin K → ℝ :=
  if p.normalized then fun _ => 0 else p.flux.mean K t i per u

/-- Embedding of `StarryProcess.cov` (sp.py lines 613-639): the GP flux
covariance matrix, passed through `_normalize` when the process is
normalized (hence possibly containing non-finite entries). -/
def cov (p : StarryProcess) {K : ℕ} (t : Fin K → ℝ) (i per : ℝ) (u : ℕ → ℝ) :
    Matrix (Fin K) (Fin K) Fval :=
  if p.normalized then
    normalizeCov p.normzmax p.alphaBetaOp (p.normMu t i per u) (p.covSig t i per u)
  else
    fun a b => .fin (p.covSig t i per u a b)

/-- The total covariance formed by `log_likelihood`:
`gp_cov + C + baseline_var`, with the scalar `baseline_var` added to every
entry, expressed over the reals (meaningful when the GP covariance is
entrywise finite). -/
def totalCov (p : StarryProcess) {K : ℕ} (t : Fin K → ℝ) (i per : ℝ) (u : ℕ → ℝ)
    (dcov : DataCov K) (bvar : ℝ) : Matrix (Fin K) (Fin K) ℝ :=
  fun a b => (p.cov t i per u a b).toReal + buildC dcov a b + bvar

/-- Embedding of `StarryProcess.log_likelihood` (sp.py lines 759-855).
The data covariance `C` is built from `data_cov` by `buildC`; the GP
covariance, `C`, and the scalar `baseline_var` are summed entrywise with
IEEE addition; the result is the Gaussian log marginal likelihood computed
from a Cholesky factorization of the total covariance, with the final
`ifelse(tt.isnan(lnlike), -np.inf, lnlike)` guard.  Modelled from the spec:
a factorization attempt on a matrix with non-finite entries, or on a matrix
admitting no Cholesky factor, yields `nan` ("a likelihood quadratic form
evaluating to not-a-number", converted to `-infinity`; the `+infinity`
covariance "propagates to a `-infinity` log-likelihood downstream"). -/
def log_likelihood (p : StarryProcess) {K : ℕ} (t : Fin K → ℝ) (flux : Fin K → ℝ)
    (dcov : DataCov K) (i per : ℝ) (u : ℕ → ℝ) (bmean bvar : ℝ) : Fval :=
  let gp_mean := p.mean t i per u
  let gp_cov := p.cov t i per u
  let total : Matrix (Fin K) (Fin K) Fval :=
    fun a b => ((gp_cov a b).add (.fin (buildC dcov a b))).add (.fin bvar)
  let r : Fin K → ℝ := fun k => flux k - gp_mean k - bmean
  let lnlike : Fval :=
    if _hfin : ∀ a b, (total a b).isFin = true then
      let S : Matrix (Fin K) (Fin K) ℝ := fun a b => (total a b).toReal
      if ∃ L, IsCholeskyFactor L S then
        .fin (-(1 / 2) * (r ⬝ᵥ cho_solve (cho_factor S) r)
          - (∑ a, Real.log (cho_factor S a a))
          - (1 / 2) * (K : ℝ) * Real.log (2 * Real.pi))
      else .nan
    else .nan
  if lnlike.isnan then .ninf else lnlike

/-- The coefficient-space covariance restricted to its meaningful block. -/
def covY (p : StarryProcess) : Matrix (Fin p.nylm) (Fin p.nylm) ℝ :=
  fun a b => p.cov_ylm a b

/-- The coefficient-space mean restricted to its meaningful entries. -/
def meanY (p : StarryProcess) : Fin p.nylm → ℝ :=
  fun a => p.mean_ylm a

/-- `self._cho_cov_ylm` (sp.py line 268): Cholesky factor of the
coefficient covariance. -/
def cho_cov_ylm (p : StarryProcess) : Matrix (Fin p.nylm) (Fin p.nylm) ℝ :=
  cho_factor p.covY

/-- `self._LInv` (sp.py lines 269-271): `cho_solve(cho_cov_ylm, eye)`. -/
def LInv (p : StarryProcess) : Matrix (Fin p.nylm) (Fin p.nylm) ℝ :=
  cho_solveM p.cho_cov_ylm 1

/-- `self._LInvmu` (sp.py line 272): `cho_solve(cho_cov_ylm, mean_ylm)`. -/
def LInvmu (p : StarryProcess) : Fin p.nylm → ℝ :=
  cho_solve p.cho_cov_ylm p.meanY

/-- Embedding of `StarryProcess.sample_ylm_conditional` (sp.py lines
478-592).  The three `NotImplementedError` guards come first; otherwise the
closed-form Gaussian posterior over coefficients is computed and the
standard-normal draw (`self.random.normal((nylm, nsamples))`), modelled as
the explicit argument `udraw`, is pushed through it.  Entry `(s, a)` of the
result is sample `s`, coefficient `a` (the code returns
`transpose(ymu[:, None] + cho_ycov . u)`). -/
def sample_ylm_conditional (p : StarryProcess) {K ns : ℕ} (t : Fin K → ℝ)
    (flux : Fin K → ℝ) (dcov : DataCov K) (i per : ℝ) (u : ℕ → ℝ)
    (bmean bvar : ℝ) (udraw : Matrix (Fin p.nylm) (Fin ns) ℝ) :
    Except String (Matrix (Fin ns) (Fin p.nylm) ℝ) :=
  if p.marginalize_over_inclination then
    .error "Not yet implemented when marginalizing over inclination."
  else if p.normalized then
    .error "Not yet implemented when the flux is normalized."
  else if p.time_variable then
    .error "Not yet implemented for time-variable maps."
  else
    let C : Matrix (Fin K) (Fin K) ℝ := fun a b => buildC dcov a b + bvar
    let A : Matrix (Fin K) (Fin p.nylm) ℝ := fun k a => p.flux.design K t i per u k a
    let cho_C := cho_factor C
    let CInvA := cho_solveM cho_C A
    let W := Aᵀ * CInvA + p.LInv
    let cho_W := cho_factor W
    let M := cho_solveM cho_W CInvAᵀ
    let ymu : Fin p.nylm → ℝ :=
      M *ᵥ (fun k => flux k - bmean) + cho_solve cho_W p.LInvmu
    let ycov := cho_solveM cho_W 1
    let cho_ycov := cho_factor ycov
    .ok (fun s a => ymu a + (cho_ycov * udraw) a s)

end StarryProcess

/-- The compatibility invariants checked by `StarryProcessSum.__init__`. -/
def compatible (A B : StarryProcess) : Prop :=
  A.ydeg = B.ydeg ∧ A.udeg = B.udeg ∧ A.normalized = B.normalized ∧
  A.marginalize_over_inclination = B.marginalize_over_inclination ∧
  A.covpts = B.covpts ∧ A.time_variable = false ∧ B.time_variable = false

/-- Embedding of `StarryProcessSum.__init__` (sp.py lines 987-1048), the
composition of two processes.  The `assert` statements become error results
carrying the source's messages, in source order; on success the moments are
summed, the remaining fields are copied from `first`, and the flux projector
is rebuilt from the summed moments via the external `FluxIntegral`
constructor, passed here as `mkFlux` (mean, covariance,
`marginalize_over_inclination`, `covpts`).  The sum's `_tau` and
`_temporal_kernel` attributes are never set by the code; they are copied
from `first` here but are unreachable since `time_variable` is `false`. -/
def addSP (mkFlux : (ℕ → ℝ) → (ℕ → ℕ → ℝ) → Bool → ℕ → FluxModel)
    (first second : StarryProcess) : Except String StarryProcess :=
  if first.ydeg ≠ second.ydeg then .error "Mismatch in `ydeg`."
  else if first.udeg ≠ second.udeg then .error "Mismatch in `udeg`."
  else if first.normalized ≠ second.normalized then .error "Mismatch in `normalized`."
  else if first.marginalize_over_inclination ≠ second.marginalize_over_inclination then
    .error "Mismatch in `marginalize_over_inclination`."
  else if first.covpts ≠ second.covpts then .error "Mismatch in `covpts`."
  else if ¬ (first.time_variable = false ∧ second.time_variable = false) then
    .error "Sums of `StarryProcess` instances not implemented for time-variable surfaces."
  else
    .ok
      { ydeg := first.ydeg
        udeg := first.udeg
        nylm := first.nylm
        covpts := first.covpts
        normalized := first.normalized
        marginalize_over_inclination := first.marginalize_over_inclination
        time_variable := false
        tau := first.tau
        temporal_kernel := first.temporal_kernel
        normzmax := first.normzmax
        alphaBetaOp := first.alphaBetaOp
        mean_ylm := fun k => first.mean_ylm k + second.mean_ylm k
        cov_ylm := fun a b => first.cov_ylm a b + second.cov_ylm a b
        flux := mkFlux (fun k => first.mean_ylm k + second.mean_ylm k)
          (fun a b => first.cov_ylm a b + second.cov_ylm a b)
          first.marginalize_over_inclination first.covpts }

/-- A trivial flux projector (all zeros), used to instantiate concrete
processes in closed-form evaluations. -/
def trivialFlux : FluxModel where
  mean := fun _ _ _ _ _ _ => 0
  cov := fun _ _ _ _ _ => fun _ _ => 0
  design := fun _ _ _ _ _ _ _ => 0

/-- A flux projector whose light-curve covariance is the all-ones matrix. -/
def onesFlux : FluxModel where
  mean := fun _ _ _ _ _ _ => 0
  cov := fun _ _ _ _ _ => fun _ _ => 1
  design := fun _ _ _ _ _ _ _ => 0

/-- A concrete `FluxIntegral` constructor for closed-form evaluations. -/
def mkflux0 : (ℕ → ℝ) → (ℕ → ℕ → ℝ) → Bool → ℕ → FluxModel :=
  fun _ _ _ _ => trivialFlux

/-- A concrete un-normalized, non-time-variable process (degree 5). -/
def procPlain : StarryProcess where
  ydeg := 5
  udeg := 0
  nylm := 36
  covpts := 300
  normalized := false
  marginalize_over_inclination := false
  time_variable := false
  tau := 0
  temporal_kernel := fun _ _ _ _ => fun _ _ => 0
  normzmax := 0.023
  alphaBetaOp := fun _ => (0, 0)
  mean_ylm := fun _ => 0
  cov_ylm := fun _ _ => 0
  flux := trivialFlux

/-- A concrete normalized process whose flux covariance is all ones, so
that its normalization expansion parameter is `z = 1`. -/
def procNorm : StarryProcess where
  ydeg := 5
  udeg := 0
  nylm := 36
  covpts := 300
  normalized := true
  marginalize_over_inclination := false
  time_variable := false
  tau := 0
  temporal_kernel := fun _ _ _ _ => fun _ _ => 0
  normzmax := 0.023
  alphaBetaOp := fun _ => (0, 0)
  mean_ylm := fun _ => 0
  cov_ylm := fun _ _ => 0
  flux := onesFlux

/-- A concrete process of a different spherical-harmonic degree. -/
def procB : StarryProcess where
  ydeg := 6
  udeg := 0
  nylm := 49
  covpts := 300
  normalized := false
  marginalize_over_inclination := false
  time_variable := false
  tau := 0
  temporal_kernel := fun _ _ _ _ => fun _ _ => 0
  normzmax := 0.023
  alphaBetaOp := fun _ => (0, 0)
  mean_ylm := fun _ => 0
  cov_ylm := fun _ _ => 0
  flux := trivialFlux

/-- The all-ones one-by-one covariance matrix. -/
def Sig1 : Matrix (Fin 1) (Fin 1) ℝ := fun _ _ => 1

/-!  Helper lemmas.  -/

theorem Fval.fin_add_fin (x y : ℝ) : (Fval.fin x).add (.fin y) = .fin (x + y) := rfl

theorem Fval.isFin_add_fin (v : Fval) (x : ℝ) : (v.add (.fin x)).isFin = v.isFin := by
  cases v <;> rfl

theorem Fval.mulInf_not_fin (x : ℝ) : (Fval.mulInf x).isFin = false := by
  unfold Fval.mulInf
  split_ifs <;> rfl

theorem Fval.eq_fin_toReal : ∀ {v : Fval}, v.isFin = true → v = .fin v.toReal := by
  intro v h
  cases v with
  | fin x => rfl
  | pinf => exact absurd h (by simp [Fval.isFin])
  | ninf => exact absurd h (by simp [Fval.isFin])
  | nan => exact absurd h (by simp [Fval.isFin])

theorem cho_factor_spec {K : ℕ} {A : Matrix (Fin K) (Fin K) ℝ}
    (h : ∃ L, IsCholeskyFactor L A) : IsCholeskyFactor (cho_factor A) A := by
  rw [cho_factor, dif_pos h]
  exact h.choose_spec

theorem cho_solve_cho_factor {K : ℕ} {A : Matrix (Fin K) (Fin K) ℝ}
    (h : ∃ L, IsCholeskyFactor L A) (b : Fin K → ℝ) :
    cho_solve (cho_factor A) b = A⁻¹ *ᵥ b := by
  rw [cho_solve, (cho_factor_spec h).2.2]

/-- C8: for every `mu` and `nu` in `(0,1)`, `get_alpha_beta mu nu` returns
`alpha = mu * (1/nu - 1)` and `beta = (1 - mu) * (1/nu - 1)`; at
`mu = nu = 0.5` it returns `alpha = beta = 0.5` exactly; and whenever `mu`
or `nu` lies outside `(0,1)` it fails with a domain error. -/
theorem C8_get_alpha_beta :
    (∀ mu nu : ℝ, 0 < mu → mu < 1 → 0 < nu → nu < 1 →
      get_alpha_beta mu nu = .ok (mu * (1 / nu - 1), (1 - mu) * (1 / nu - 1))) ∧
    get_alpha_beta 0.5 0.5 = .ok (0.5, 0.5) ∧
    (∀ mu nu : ℝ, (¬ (0 < mu ∧ mu < 1)) ∨ (¬ (0 < nu ∧ nu < 1)) →
      ∃ msg, get_alpha_beta mu nu = .error msg) := by
  refine ⟨?_, ?_, ?_⟩
  · intro mu nu h1 h2 h3 h4
    rw [get_alpha_beta, if_pos ⟨h1, h2⟩, if_pos ⟨h3, h4⟩]
  · rw [get_alpha_beta, if_pos (by norm_num), if_pos (by norm_num)]
    norm_num
  · intro mu nu h
    by_cases hmu : 0 < mu ∧ mu < 1
    · rcases h with h | h
      · exact absurd hmu h
      · exact ⟨_, by rw [get_alpha_beta, if_pos hmu, if_neg h]⟩
    · exact ⟨_, by rw [get_alpha_beta, if_neg hmu]⟩

/-- Witness for C8 at `mu = 0.25`, `nu = 0.5`. -/
theorem C8_get_alpha_beta_witness :
    (0 : ℝ) < 0.25 ∧ (0.25 : ℝ) < 1 ∧ (0 : ℝ) < 0.5 ∧ (0.5 : ℝ) < 1 ∧
    get_alpha_beta 0.25 0.5 =
      .ok (0.25 * (1 / 0.5 - 1), (1 - 0.25) * (1 / 0.5 - 1)) :=
  ⟨by norm_num, by norm_num, by norm_num, by norm_num,
    C8_get_alpha_beta.1 0.25 0.5 (by norm_num) (by norm_num) (by norm_num) (by norm_num)⟩

/-- C10: for a process constructed with `normalized = True`, the GP flux
mean returned by `mean(t, i, p, u)` is the all-zeros vector of the length
of `t`, so the likelihood residual reduces to `flux - baseline_mean`. -/
theorem C10_normalized_mean_zero (p : StarryProcess) {K : ℕ} (t : Fin K → ℝ)
    (i per : ℝ) (u : ℕ → ℝ) (h : p.normalized = true) :
    p.mean t i per u = (fun _ => 0) ∧
    (∀ (flux : Fin K → ℝ) (bmean : ℝ) (k : Fin K),
      flux k - p.mean t i per u k - bmean = flux k - bmean) := by
  constructor
  · rw [StarryProcess.mean, if_pos h]
  · intro flux bmean k
    rw [StarryProcess.mean, if_pos h]
    ring

/-- Witness for C10 on the concrete normalized process `procNorm`. -/
theorem C10_normalized_mean_zero_witness :
    procNorm.normalized = true ∧
    procNorm.mean (fun _ : Fin 2 => 0) 0 0 (fun _ => 0) = (fun _ => 0) :=
  ⟨rfl, (C10_normalized_mean_zero procNorm (fun _ : Fin 2 => 0) 0 0 (fun _ => 0) rfl).1⟩

/-- C9: `eigen` builds `U` with column `j` equal to the eigenvector in
column `rev j` of the eigh output scaled by the square root of its
eigenvalue clamped to be nonnegative (descending eigenvalue order, since
eigh returns ascending order); and for full rank (`n = N`), given the eigh
contract (orthogonal `V`, `Q = V diag(w) Vᵀ`) and `Q` positive
semidefinite, `U * Uᵀ = Q`. -/
theorem C9_eigen :
    (∀ (N n : ℕ) (V : Matrix (Fin N) (Fin n) ℝ) (w : Fin n → ℝ)
      (i : Fin N) (j : Fin n),
      eigen V w i j = V i (Fin.rev j) * Real.sqrt (max 0 (w (Fin.rev j)))) ∧
    (∀ (N : ℕ) (Q V : Matrix (Fin N) (Fin N) ℝ) (w : Fin N → ℝ),
      Q.PosSemidef → Vᵀ * V = 1 → Q = V * Matrix.diagonal w * Vᵀ →
      eigen V w * (eigen V w)ᵀ = Q ∧
      (Monotone w → ∀ j₁ j₂ : Fin N, j₁ ≤ j₂ → w (Fin.rev j₂) ≤ w (Fin.rev j₁))) := by
  have happly : ∀ (N n : ℕ) (V : Matrix (Fin N) (Fin n) ℝ) (w : Fin n → ℝ)
      (i : Fin N) (j : Fin n),
      eigen V w i j = V i (Fin.rev j) * Real.sqrt (max 0 (w (Fin.rev j))) := by
    intro N n V w i j
    rw [eigen, Matrix.mul_diagonal]
  refine ⟨happly, ?_⟩
  intro N Q V w hPSD hVo hdec
  -- the eigenvalues delivered by eigh are nonnegative for a PSD input
  have hw : ∀ k : Fin N, 0 ≤ w k := by
    intro k
    have hcol : ∑ i, V i k * V i k = 1 := by
      have h1 := congrFun (congrFun hVo k) k
      simpa [Matrix.mul_apply, Matrix.transpose_apply, Matrix.one_apply] using h1
    have hx := hPSD.2 (V *ᵥ Pi.single k 1)
    rw [hdec, Matrix.mulVec_mulVec,
      Matrix.mul_assoc (V * Matrix.diagonal w), hVo, Matrix.mul_one] at hx
    have hval : dotProduct (star (V *ᵥ Pi.single k 1))
        ((V * Matrix.diagonal w) *ᵥ Pi.single k 1) = w k := by
      calc dotProduct (star (V *ᵥ Pi.single k 1))
            ((V * Matrix.diagonal w) *ᵥ Pi.single k 1)
          = ∑ i, V i k * (V i k * w k) := by
            simp [dotProduct, Matrix.mulVec_single, Matrix.mul_diagonal]
        _ = (∑ i, V i k * V i k) * w k := by
            rw [Finset.sum_mul]
            exact Finset.sum_congr rfl fun i _ => by ring
        _ = w k := by rw [hcol, one_mul]
    rw [hval] at hx
    exact hx
  have hs : ∀ k : Fin N, Real.sqrt (max 0 (w k)) * Real.sqrt (max 0 (w k)) = w k := by
    intro k
    rw [Real.mul_self_sqrt (le_max_left 0 (w k)), max_eq_right (hw k)]
  constructor
  · funext a b
    rw [Matrix.mul_apply, hdec, Matrix.mul_apply]
    have lhs_eq : ∀ j : Fin N, eigen V w a j * (eigen V w)ᵀ j b =
        (V a (Fin.rev j) * w (Fin.rev j)) * V b (Fin.rev j) := by
      intro j
      rw [Matrix.transpose_apply, happly, happly]
      calc (V a (Fin.rev j) * Real.sqrt (max 0 (w (Fin.rev j)))) *
            (V b (Fin.rev j) * Real.sqrt (max 0 (w (Fin.rev j))))
          = (V a (Fin.rev j) * V b (Fin.rev j)) *
            (Real.sqrt (max 0 (w (Fin.rev j))) * Real.sqrt (max 0 (w (Fin.rev j)))) := by
            ring
        _ = (V a (Fin.rev j) * w (Fin.rev j)) * V b (Fin.rev j) := by
            rw [hs]; ring
    calc ∑ j, eigen V w a j * (eigen V w)ᵀ j b
        = ∑ j, (V a (Fin.rev j) * w (Fin.rev j)) * V b (Fin.rev j) :=
          Finset.sum_congr rfl fun j _ => lhs_eq j
      _ = ∑ k, (V a k * w k) * V b k :=
          Fintype.sum_bijective Fin.rev Fin.rev_involutive.bijective _ _ (fun _ => rfl)
      _ = ∑ k, (V * Matrix.diagonal w) a k * Vᵀ k b :=
          Finset.sum_congr rfl fun k _ => by
            rw [Matrix.mul_diagonal, Matrix.transpose_apply]
  · intro hmono j₁ j₂ h
    exact hmono (Fin.rev_le_rev.mpr h)

/-- Witness for C9: the identity eigendecomposition of the one-by-one
identity matrix. -/
theorem C9_eigen_witness :
    (1 : Matrix (Fin 1) (Fin 1) ℝ).PosSemidef ∧
    (1 : Matrix (Fin 1) (Fin 1) ℝ)ᵀ * 1 = 1 ∧
    (1 : Matrix (Fin 1) (Fin 1) ℝ) =
      1 * Matrix.diagonal (fun _ : Fin 1 => (1 : ℝ)) * (1 : Matrix (Fin 1) (Fin 1) ℝ)ᵀ ∧
    eigen (1 : Matrix (Fin 1) (Fin 1) ℝ) (fun _ => (1 : ℝ)) *
      (eigen (1 : Matrix (Fin 1) (Fin 1) ℝ) (fun _ => (1 : ℝ)))ᵀ = 1 := by
  have h1 : (1 : Matrix (Fin 1) (Fin 1) ℝ).PosSemidef := Matrix.PosSemidef.one
  have h2 : (1 : Matrix (Fin 1) (Fin 1) ℝ)ᵀ * 1 = 1 := by
    rw [Matrix.transpose_one, Matrix.mul_one]
  have h3 : (1 : Matrix (Fin 1) (Fin 1) ℝ) =
      1 * Matrix.diagonal (fun _ : Fin 1 => (1 : ℝ)) * (1 : Matrix (Fin 1) (Fin 1) ℝ)ᵀ := by
    rw [Matrix.diagonal_one, Matrix.transpose_one, Matrix.mul_one, Matrix.mul_one]
  exact ⟨h1, h2, h3, (C9_eigen.2 1 1 1 (fun _ => 1) h1 h2 h3).1⟩

/-- C3: when the expansion parameter `z = mean(Sig)/mu^2` does not exceed
the configured maximum, the normalized covariance equals
`alpha/mu^2 * Sig + z * ((alpha + beta) * p pᵀ - alpha * q qᵀ)` with
`m = mean(Sig)` the elementwise average, `q = (Sig . 1)/(K m)`,
`p = 1 - q`, and `(alpha, beta)` produced by the series op at `z`. -/
theorem C3_normalize_formula (zmax : ℝ) (ab : ℝ → ℝ × ℝ) (mu : ℝ) {K : ℕ}
    (Sig : Matrix (Fin K) (Fin K) ℝ) (m z alpha beta : ℝ) (qv pv : Fin K → ℝ)
    (hm : m = matMean Sig)
    (hq : qv = fun a => (∑ b, Sig a b) / ((K : ℝ) * m))
    (hz : z = m / mu ^ 2)
    (hp : pv = fun a => 1 - qv a)
    (hab : ab z = (alpha, beta))
    (hle : z ≤ zmax) :
    normalizeCov zmax ab mu Sig = fun a b =>
      .fin (((alpha / mu ^ 2) • Sig +
        z • ((alpha + beta) • Matrix.vecMulVec pv pv -
          alpha • Matrix.vecMulVec qv qv)) a b) := by
  subst hm hz hq hp
  rw [normalizeCov]
  rw [if_neg (not_lt.mpr hle)]
  funext a b
  simp only [Matrix.add_apply, Matrix.smul_apply, Matrix.sub_apply,
    Matrix.vecMulVec_apply, smul_eq_mul, hab]

/-- Witness for C3 on the one-by-one all-ones covariance with `mu = 1`. -/
theorem C3_normalize_formula_witness :
    (1 : ℝ) = matMean Sig1 ∧
    (fun _ : Fin 1 => (1 : ℝ)) = (fun a => (∑ b, Sig1 a b) / (((1 : ℕ) : ℝ) * 1)) ∧
    (1 : ℝ) = 1 / (1 : ℝ) ^ 2 ∧
    (fun _ : Fin 1 => (0 : ℝ)) = (fun a : Fin 1 => 1 - (fun _ : Fin 1 => (1 : ℝ)) a) ∧
    (fun z : ℝ => (z, z)) 1 = ((1 : ℝ), (1 : ℝ)) ∧
    (1 : ℝ) ≤ 2 ∧
    normalizeCov 2 (fun z => (z, z)) 1 Sig1 = fun a b =>
      .fin (((((1 : ℝ) / 1 ^ 2) • Sig1 +
        (1 : ℝ) • (((1 : ℝ) + 1) • Matrix.vecMulVec (fun _ : Fin 1 => (0 : ℝ)) (fun _ => 0) -
          (1 : ℝ) • Matrix.vecMulVec (fun _ : Fin 1 => (1 : ℝ)) (fun _ => 1)) :
          Matrix (Fin 1) (Fin 1) ℝ)) a b) := by
  have hm : (1 : ℝ) = matMean Sig1 := by
    norm_num [matMean, Sig1]
  have hq : (fun _ : Fin 1 => (1 : ℝ)) =
      (fun a => (∑ b, Sig1 a b) / (((1 : ℕ) : ℝ) * 1)) := by
    funext a
    norm_num [Sig1]
  have hz : (1 : ℝ) = 1 / (1 : ℝ) ^ 2 := by norm_num
  have hp : (fun _ : Fin 1 => (0 : ℝ)) = (fun a : Fin 1 => 1 - (fun _ : Fin 1 => (1 : ℝ)) a) := by
    funext a
    norm_num
  have hle : (1 : ℝ) ≤ 2 := by norm_num
  exact ⟨hm, hq, hz, hp, rfl, hle,
    C3_normalize_formula 2 (fun z => (z, z)) 1 Sig1 1 1 1 1
      (fun _ => 1) (fun _ => 0) hm hq hz hp rfl hle⟩

/-- Counterexample to C4 as stated: for the two-by-two identity matrix
(a genuine covariance matrix) and `mu = 1`, the expansion parameter is
`z = 1/2 > 0.023 = zmax`, yet the off-diagonal entries of the returned
matrix are `0 * inf = nan`, not `+inf`. -/
theorem C4_counterexample :
    (0.023 : ℝ) < matMean (1 : Matrix (Fin 2) (Fin 2) ℝ) / (1 : ℝ) ^ 2 ∧
    normalizeCov 0.023 (fun z => (z, z)) 1 (1 : Matrix (Fin 2) (Fin 2) ℝ) 0 1 ≠
      Fval.pinf := by
  have hm : matMean (1 : Matrix (Fin 2) (Fin 2) ℝ) = 1 / 2 := by
    norm_num [matMean, Fin.sum_univ_two, Matrix.one_apply]
  have hgt : (0.023 : ℝ) < matMean (1 : Matrix (Fin 2) (Fin 2) ℝ) / (1 : ℝ) ^ 2 := by
    rw [hm]
    norm_num
  refine ⟨hgt, ?_⟩
  rw [normalizeCov]
  rw [if_pos hgt]
  have h01 : (1 : Matrix (Fin 2) (Fin 2) ℝ) 0 1 = 0 := by
    simp [Matrix.one_apply]
  have hnan : Fval.mulInf ((1 : Matrix (Fin 2) (Fin 2) ℝ) 0 1) = Fval.nan := by
    rw [h01, Fval.mulInf]
    norm_num
  rw [hnan]
  exact fun h => Fval.noConfusion h

/-- C4 amended: when `z` exceeds `normalization_zmax` the normalization
step returns `Sig * inf` elementwise under IEEE semantics — `+inf` at every
entry where `Sig` is positive, `-inf` where it is negative, `nan` where it
is zero; in particular no entry is finite. -/
theorem C4_normalize_inf (zmax : ℝ) (ab : ℝ → ℝ × ℝ) (mu : ℝ) {K : ℕ}
    (Sig : Matrix (Fin K) (Fin K) ℝ)
    (hgt : zmax < matMean Sig / mu ^ 2) (a b : Fin K) :
    normalizeCov zmax ab mu Sig a b = Fval.mulInf (Sig a b) ∧
    (0 < Sig a b → normalizeCov zmax ab mu Sig a b = .pinf) ∧
    (Sig a b < 0 → normalizeCov zmax ab mu Sig a b = .ninf) ∧
    (Sig a b = 0 → normalizeCov zmax ab mu Sig a b = .nan) ∧
    (normalizeCov zmax ab mu Sig a b).isFin = false := by
  have hmain : normalizeCov zmax ab mu Sig a b = Fval.mulInf (Sig a b) := by
    rw [normalizeCov]
    rw [if_pos hgt]
  refine ⟨hmain, ?_, ?_, ?_, ?_⟩
  · intro hpos
    rw [hmain, Fval.mulInf, if_pos hpos]
  · intro hneg
    rw [hmain, Fval.mulInf, if_neg (by linarith), if_pos hneg]
  · intro hzero
    rw [hmain, Fval.mulInf, hzero]
    norm_num
  · rw [hmain]
    exact Fval.mulInf_not_fin _

/-- Witness for the amended C4: the positive diagonal entry of the same
two-by-two identity input maps to `+inf`. -/
theorem C4_normalize_inf_witness :
    (0.023 : ℝ) < matMean (1 : Matrix (Fin 2) (Fin 2) ℝ) / (1 : ℝ) ^ 2 ∧
    (0 : ℝ) < (1 : Matrix (Fin 2) (Fin 2) ℝ) 0 0 ∧
    normalizeCov 0.023 (fun z => (z, z)) 1 (1 : Matrix (Fin 2) (Fin 2) ℝ) 0 0 =
      Fval.pinf := by
  have hm : matMean (1 : Matrix (Fin 2) (Fin 2) ℝ) = 1 / 2 := by
    norm_num [matMean, Fin.sum_univ_two, Matrix.one_apply]
  have hgt : (0.023 : ℝ) < matMean (1 : Matrix (Fin 2) (Fin 2) ℝ) / (1 : ℝ) ^ 2 := by
    rw [hm]
    norm_num
  have hpos : (0 : ℝ) < (1 : Matrix (Fin 2) (Fin 2) ℝ) 0 0 := by
    simp [Matrix.one_apply]
  exact ⟨hgt, hpos,
    (C4_normalize_inf 0.023 (fun z => (z, z)) 1 (1 : Matrix (Fin 2) (Fin 2) ℝ)
      hgt 0 0).2.1 hpos⟩

/-- C6: whenever inclination-marginalization, normalization, or
time-variability is set on the process, `sample_ylm_conditional` returns
the corresponding explicit not-implemented error (checked in that order,
before any posterior quantity is computed) instead of a result. -/
theorem C6_conditional_guards (p : StarryProcess) {K ns : ℕ} (t : Fin K → ℝ)
    (flux : Fin K → ℝ) (dcov : DataCov K) (i per : ℝ) (u : ℕ → ℝ)
    (bmean bvar : ℝ) (udraw : Matrix (Fin p.nylm) (Fin ns) ℝ) :
    (p.marginalize_over_inclination = true →
      p.sample_ylm_conditional t flux dcov i per u bmean bvar udraw =
        .error "Not yet implemented when marginalizing over inclination.") ∧
    (p.marginalize_over_inclination = false → p.normalized = true →
      p.sample_ylm_conditional t flux dcov i per u bmean bvar udraw =
        .error "Not yet implemented when the flux is normalized.") ∧
    (p.marginalize_over_inclination = false → p.normalized = false →
      p.time_variable = true →
      p.sample_ylm_conditional t flux dcov i per u bmean bvar udraw =
        .error "Not yet implemented for time-variable maps.") ∧
    ((p.marginalize_over_inclination = true ∨ p.normalized = true ∨
        p.time_variable = true) →
      ∃ msg, p.sample_ylm_conditional t flux dcov i per u bmean bvar udraw =
        .error msg) := by
  refine ⟨?_, ?_, ?_, ?_⟩
  · intro h1
    rw [StarryProcess.sample_ylm_conditional, if_pos h1]
  · intro h1 h2
    rw [StarryProcess.sample_ylm_conditional, if_neg (by rw [h1]; exact Bool.false_ne_true),
      if_pos h2]
  · intro h1 h2 h3
    rw [StarryProcess.sample_ylm_conditional, if_neg (by rw [h1]; exact Bool.false_ne_true),
      if_neg (by rw [h2]; exact Bool.false_ne_true), if_pos h3]
  · intro h
    by_cases h1 : p.marginalize_over_inclination = true
    · exact ⟨_, by rw [StarryProcess.sample_ylm_conditional, if_pos h1]⟩
    · have h1f : p.marginalize_over_inclination = false := by
        revert h1
        cases p.marginalize_over_inclination <;> simp
      by_cases h2 : p.normalized = true
      · exact ⟨_, by rw [StarryProcess.sample_ylm_conditional,
          if_neg (by rw [h1f]; exact Bool.false_ne_true), if_pos h2]⟩
      · have h2f : p.normalized = false := by
          revert h2
          cases p.normalized <;> simp
        have h3 : p.time_variable = true := by
          rcases h with h | h | h
          · exact absurd h h1
          · exact absurd h h2
          · exact h
        exact ⟨_, by rw [StarryProcess.sample_ylm_conditional,
          if_neg (by rw [h1f]; exact Bool.false_ne_true),
          if_neg (by rw [h2f]; exact Bool.false_ne_true), if_pos h3]⟩

/-- Witness for C6 on the concrete normalized process `procNorm`. -/
theorem C6_conditional_guards_witness :
    procNorm.marginalize_over_inclination = false ∧ procNorm.normalized = true ∧
    procNorm.sample_ylm_conditional (fun _ : Fin 1 => 0) (fun _ => 0)
      (DataCov.scalar 1) 0 0 (fun _ => 0) 0 0 (0 : Matrix (Fin procNorm.nylm) (Fin 1) ℝ) =
      .error "Not yet implemented when the flux is normalized." := by
  refine ⟨rfl, rfl, ?_⟩
  exact (C6_conditional_guards procNorm (fun _ : Fin 1 => 0) (fun _ => 0)
    (DataCov.scalar 1) 0 0 (fun _ => 0) 0 0 (0 : Matrix (Fin procNorm.nylm) (Fin 1) ℝ)).2.1 rfl rfl

/-- C7: composing two processes fails with a message naming the first
mismatched field when `ydeg`, `udeg`, `normalized`,
`marginalize_over_inclination` or `covpts` differ (in the source's check
order), fails with the time-variability message when the fields agree but
either operand is time-variable, and succeeds on any two compatible
non-time-variable processes. -/
theorem C7_compose_errors (mkFlux : (ℕ → ℝ) → (ℕ → ℕ → ℝ) → Bool → ℕ → FluxModel)
    (A B : StarryProcess) :
    (A.ydeg ≠ B.ydeg → addSP mkFlux A B = .error "Mismatch in `ydeg`.") ∧
    (A.ydeg = B.ydeg → A.udeg ≠ B.udeg →
      addSP mkFlux A B = .error "Mismatch in `udeg`.") ∧
    (A.ydeg = B.ydeg → A.udeg = B.udeg → A.normalized ≠ B.normalized →
      addSP mkFlux A B = .error "Mismatch in `normalized`.") ∧
    (A.ydeg = B.ydeg → A.udeg = B.udeg → A.normalized = B.normalized →
      A.marginalize_over_inclination ≠ B.marginalize_over_inclination →
      addSP mkFlux A B = .error "Mismatch in `marginalize_over_inclination`.") ∧
    (A.ydeg = B.ydeg → A.udeg = B.udeg → A.normalized = B.normalized →
      A.marginalize_over_inclination = B.marginalize_over_inclination →
      A.covpts ≠ B.covpts → addSP mkFlux A B = .error "Mismatch in `covpts`.") ∧
    (A.ydeg = B.ydeg → A.udeg = B.udeg → A.normalized = B.normalized →
      A.marginalize_over_inclination = B.marginalize_over_inclination →
      A.covpts = B.covpts →
      (A.time_variable = true ∨ B.time_variable = true) →
      addSP mkFlux A B =
        .error "Sums of `StarryProcess` instances not implemented for time-variable surfaces.") ∧
    (compatible A B → ∃ S, addSP mkFlux A B = .ok S) := by
  refine ⟨?_, ?_, ?_, ?_, ?_, ?_, ?_⟩
  · intro h1
    rw [addSP, if_pos h1]
  · intro h1 h2
    rw [addSP, if_neg (not_not_intro h1), if_pos h2]
  · intro h1 h2 h3
    rw [addSP, if_neg (not_not_intro h1), if_neg (not_not_intro h2), if_pos h3]
  · intro h1 h2 h3 h4
    rw [addSP, if_neg (not_not_intro h1), if_neg (not_not_intro h2),
      if_neg (not_not_intro h3), if_pos h4]
  · intro h1 h2 h3 h4 h5
    rw [addSP, if_neg (not_not_intro h1), if_neg (not_not_intro h2),
      if_neg (not_not_intro h3), if_neg (not_not_intro h4), if_pos h5]
  · intro h1 h2 h3 h4 h5 h6
    rw [addSP, if_neg (not_not_intro h1), if_neg (not_not_intro h2),
      if_neg (not_not_intro h3), if_neg (not_not_intro h4),
      if_neg (not_not_intro h5), if_pos ?_]
    rintro ⟨ha, hb⟩
    rcases h6 with h | h
    · rw [h] at ha
      exact Bool.noConfusion ha
    · rw [h] at hb
      exact Bool.noConfusion hb
  · rintro ⟨h1, h2, h3, h4, h5, h6, h7⟩
    rw [addSP, if_neg (not_not_intro h1), if_neg (not_not_intro h2),
      if_neg (not_not_intro h3), if_neg (not_not_intro h4),
      if_neg (not_not_intro h5), if_neg (not_not_intro ⟨h6, h7⟩)]
    exact ⟨_, rfl⟩

/-- Witness for C7: composing the degree-5 and degree-6 concrete processes
fails with the `ydeg` message. -/
theorem C7_compose_errors_witness :
    procPlain.ydeg ≠ procB.ydeg ∧
    addSP mkflux0 procPlain procB = .error "Mismatch in `ydeg`." := by
  have h : procPlain.ydeg ≠ procB.ydeg := by decide
  exact ⟨h, (C7_compose_errors mkflux0 procPlain procB).1 h⟩

theorem addSP_ok (mkFlux : (ℕ → ℝ) → (ℕ → ℕ → ℝ) → Bool → ℕ → FluxModel)
    {A B : StarryProcess} (h : compatible A B) :
    addSP mkFlux A B = .ok
      { ydeg := A.ydeg
        udeg := A.udeg
        nylm := A.nylm
        covpts := A.covpts
        normalized := A.normalized
        marginalize_over_inclination := A.marginalize_over_inclination
        time_variable := false
        tau := A.tau
        temporal_kernel := A.temporal_kernel
        normzmax := A.normzmax
        alphaBetaOp := A.alphaBetaOp
        mean_ylm := fun k => A.mean_ylm k + B.mean_ylm k
        cov_ylm := fun a b => A.cov_ylm a b + B.cov_ylm a b
        flux := mkFlux (fun k => A.mean_ylm k + B.mean_ylm k)
          (fun a b => A.cov_ylm a b + B.cov_ylm a b)
          A.marginalize_over_inclination A.covpts } := by
  obtain ⟨h1, h2, h3, h4, h5, h6, h7⟩ := h
  rw [addSP, if_neg (not_not_intro h1), if_neg (not_not_intro h2),
    if_neg (not_not_intro h3), if_neg (not_not_intro h4),
    if_neg (not_not_intro h5), if_neg (not_not_intro ⟨h6, h7⟩)]

/-- C2: composing two compatible processes yields a process whose
coefficient-space mean and covariance are the entrywise sums of the
operands' moments; composing a process with itself doubles both moments;
and composing three pairwise-compatible processes in either associative
grouping yields identical combined moments. -/
theorem C2_compose_moments (mkFlux : (ℕ → ℝ) → (ℕ → ℕ → ℝ) → Bool → ℕ → FluxModel)
    (A B D : StarryProcess) :
    (compatible A B → ∃ S, addSP mkFlux A B = .ok S ∧
      S.mean_ylm = (fun k => A.mean_ylm k + B.mean_ylm k) ∧
      S.cov_ylm = (fun a b => A.cov_ylm a b + B.cov_ylm a b)) ∧
    (A.time_variable = false → ∃ S, addSP mkFlux A A = .ok S ∧
      S.mean_ylm = (fun k => 2 * A.mean_ylm k) ∧
      S.cov_ylm = (fun a b => 2 * A.cov_ylm a b)) ∧
    (compatible A B → compatible B D → compatible A D →
      ∃ SAB SL SBD SR,
        addSP mkFlux A B = .ok SAB ∧ addSP mkFlux SAB D = .ok SL ∧
        addSP mkFlux B D = .ok SBD ∧ addSP mkFlux A SBD = .ok SR ∧
        SL.mean_ylm = SR.mean_ylm ∧ SL.cov_ylm = SR.cov_ylm) := by
  refine ⟨?_, ?_, ?_⟩
  · intro h
    exact ⟨_, addSP_ok mkFlux h, rfl, rfl⟩
  · intro htv
    have h : compatible A A := ⟨rfl, rfl, rfl, rfl, rfl, htv, htv⟩
    refine ⟨_, addSP_ok mkFlux h, ?_, ?_⟩
    · funext k
      show A.mean_ylm k + A.mean_ylm k = 2 * A.mean_ylm k
      ring
    · funext a b
      show A.cov_ylm a b + A.cov_ylm a b = 2 * A.cov_ylm a b
      ring
  · intro hAB hBD hAD
    refine ⟨_, _, _, _, addSP_ok mkFlux hAB, addSP_ok mkFlux ?_,
      addSP_ok mkFlux hBD, addSP_ok mkFlux ?_, ?_, ?_⟩
    · exact ⟨hAD.1, hAD.2.1, hAD.2.2.1, hAD.2.2.2.1, hAD.2.2.2.2.1, rfl,
        hAD.2.2.2.2.2.2⟩
    · exact ⟨hAB.1, hAB.2.1, hAB.2.2.1, hAB.2.2.2.1, hAB.2.2.2.2.1,
        hAB.2.2.2.2.2.1, rfl⟩
    · funext k
      show (A.mean_ylm k + B.mean_ylm k) + D.mean_ylm k =
        A.mean_ylm k + (B.mean_ylm k + D.mean_ylm k)
      ring
    · funext a b
      show (A.cov_ylm a b + B.cov_ylm a b) + D.cov_ylm a b =
        A.cov_ylm a b + (B.cov_ylm a b + D.cov_ylm a b)
      ring

/-- Witness for C2: composing the concrete process `procPlain` with
itself doubles its moments. -/
theorem C2_compose_moments_witness :
    procPlain.time_variable = false ∧
    ∃ S, addSP mkflux0 procPlain procPlain = .ok S ∧
      S.mean_ylm = (fun k => 2 * procPlain.mean_ylm k) ∧
      S.cov_ylm = (fun a b => 2 * procPlain.cov_ylm a b) :=
  ⟨rfl, (C2_compose_moments mkflux0 procPlain procPlain procPlain).2.1 rfl⟩

/-- C5: for a normalized process, whenever the expansion parameter
`z = mean(Sig)/mu^2` of the flux covariance exceeds `normalization_zmax`,
`log_likelihood` returns negative infinity. -/
theorem C5_loglike_neg_inf (p : StarryProcess) {K : ℕ} (t : Fin K → ℝ)
    (flux : Fin K → ℝ) (dcov : DataCov K) (i per : ℝ) (u : ℕ → ℝ)
    (bmean bvar : ℝ) (hnorm : p.normalized = true) (hK : 0 < K)
    (hz : p.normzmax < matMean (p.covSig t i per u) / (p.normMu t i per u) ^ 2) :
    p.log_likelihood t flux dcov i per u bmean bvar = Fval.ninf := by
  have hcov : ∀ a b : Fin K,
      p.cov t i per u a b = Fval.mulInf (p.covSig t i per u a b) := by
    intro a b
    rw [StarryProcess.cov, if_pos hnorm]
    simp only [normalizeCov]
    rw [if_pos hz]
  have hbad : ¬ ∀ a b : Fin K,
      ((((p.cov t i per u a b).add (.fin (buildC dcov a b))).add
        (.fin bvar)).isFin = true) := by
    intro hall
    have h0 := hall ⟨0, hK⟩ ⟨0, hK⟩
    rw [Fval.isFin_add_fin, Fval.isFin_add_fin, hcov, Fval.mulInf_not_fin] at h0
    exact Bool.noConfusion h0
  simp only [StarryProcess.log_likelihood]
  rw [dif_neg hbad]
  rfl

/-- Witness for C5: the concrete normalized process `procNorm`, whose flux
covariance is all ones, has `z = 1 > 0.023 = normalization_zmax`. -/
theorem C5_loglike_neg_inf_witness :
    procNorm.normalized = true ∧ (0 : ℕ) < 1 ∧
    procNorm.normzmax <
      matMean (procNorm.covSig (fun _ : Fin 1 => 0) 0 0 (fun _ => 0)) /
        (procNorm.normMu (fun _ : Fin 1 => 0) 0 0 (fun _ => 0)) ^ 2 ∧
    procNorm.log_likelihood (fun _ : Fin 1 => 0) (fun _ => 0)
      (DataCov.scalar 1) 0 0 (fun _ => 0) 0 0 = Fval.ninf := by
  have hz : procNorm.normzmax <
      matMean (procNorm.covSig (fun _ : Fin 1 => 0) 0 0 (fun _ => 0)) /
        (procNorm.normMu (fun _ : Fin 1 => 0) 0 0 (fun _ => 0)) ^ 2 := by
    have hc : procNorm.covSig (fun _ : Fin 1 => 0) 0 0 (fun _ => 0) = Sig1 := rfl
    have hmu : procNorm.normMu (fun _ : Fin 1 => 0) 0 0 (fun _ => 0) = 1 := by
      rw [StarryProcess.normMu, dif_pos one_pos]
      show 1 + onesFlux.mean 1 (fun _ => 0) 0 0 (fun _ => 0) ⟨0, one_pos⟩ = 1
      norm_num [onesFlux]
    rw [hc, hmu]
    have hm : matMean Sig1 = 1 := by
      norm_num [matMean, Sig1]
    rw [hm]
    show (0.023 : ℝ) < 1 / 1 ^ 2
    norm_num
  exact ⟨rfl, one_pos, hz,
    C5_loglike_neg_inf procNorm (fun _ : Fin 1 => 0) (fun _ => 0)
      (DataCov.scalar 1) 0 0 (fun _ => 0) 0 0 rfl one_pos hz⟩

/-- C1: `log_likelihood` builds the data covariance `C` from `data_cov`
(a scalar broadcasts to a multiple of the identity, a vector becomes a
diagonal matrix, a full matrix is used as-is), forms the total covariance
`gp_cov + C + baseline_var` with `baseline_var` added to every entry, and —
whenever the GP covariance is finite and the total covariance admits a
Cholesky factor — returns
`-1/2 rᵀ Σ⁻¹ r - Σ log(diag(cho(Σ))) - 1/2 K log(2π)` with
`r = flux - gp_mean - baseline_mean`. -/
theorem C1_loglike_formula (p : StarryProcess) {K : ℕ} (t : Fin K → ℝ)
    (flux : Fin K → ℝ) (dcov : DataCov K) (i per : ℝ) (u : ℕ → ℝ)
    (bmean bvar : ℝ)
    (hfin : ∀ a b : Fin K, (p.cov t i per u a b).isFin = true)
    (hch : ∃ L, IsCholeskyFactor L (p.totalCov t i per u dcov bvar)) :
    (∀ s : ℝ, buildC (DataCov.scalar s) = s • (1 : Matrix (Fin K) (Fin K) ℝ)) ∧
    (∀ v : Fin K → ℝ, buildC (DataCov.vec v) = Matrix.diagonal v) ∧
    (∀ M : Matrix (Fin K) (Fin K) ℝ, buildC (DataCov.mat M) = M) ∧
    p.totalCov t i per u dcov bvar =
      (fun a b => (p.cov t i per u a b).toReal + buildC dcov a b + bvar) ∧
    p.log_likelihood t flux dcov i per u bmean bvar =
      .fin (-(1 / 2) * ((fun k => flux k - p.mean t i per u k - bmean) ⬝ᵥ
          ((p.totalCov t i per u dcov bvar)⁻¹ *ᵥ
            (fun k => flux k - p.mean t i per u k - bmean)))
        - (∑ a, Real.log (cho_factor (p.totalCov t i per u dcov bvar) a a))
        - (1 / 2) * (K : ℝ) * Real.log (2 * Real.pi)) := by
  refine ⟨fun s => rfl, fun v => rfl, fun M => rfl, rfl, ?_⟩
  have hc1 : ∀ a b : Fin K,
      ((((p.cov t i per u a b).add (.fin (buildC dcov a b))).add
        (.fin bvar)).isFin = true) := by
    intro a b
    rw [Fval.isFin_add_fin, Fval.isFin_add_fin]
    exact hfin a b
  have hSeq : (fun a b : Fin K =>
        ((((p.cov t i per u a b).add (.fin (buildC dcov a b))).add
          (.fin bvar)).toReal)) = p.totalCov t i per u dcov bvar := by
    funext a b
    rw [Fval.eq_fin_toReal (hfin a b)]
    rfl
  simp only [StarryProcess.log_likelihood]
  rw [dif_pos hc1, hSeq, if_pos hch, cho_solve_cho_factor hch]
  rfl

/-- Witness for C1: the concrete un-normalized process `procPlain` with one
observation, unit scalar data covariance, and zero baseline variance; the
total covariance is the one-by-one identity, whose Cholesky factor is
itself. -/
theorem C1_loglike_formula_witness :
    (∀ a b : Fin 1,
      ((procPlain.cov (fun _ : Fin 1 => 0) 0 0 (fun _ => 0) a b).isFin = true)) ∧
    (∃ L, IsCholeskyFactor L
      (procPlain.totalCov (fun _ : Fin 1 => 0) 0 0 (fun _ => 0)
        (DataCov.scalar 1) 0)) ∧
    procPlain.log_likelihood (fun _ : Fin 1 => 0) (fun _ => 1)
      (DataCov.scalar 1) 0 0 (fun _ => 0) 0 0 =
      .fin (-(1 / 2) * ((fun k : Fin 1 =>
          (fun _ : Fin 1 => (1 : ℝ)) k -
            procPlain.mean (fun _ : Fin 1 => 0) 0 0 (fun _ => 0) k - 0) ⬝ᵥ
          ((procPlain.totalCov (fun _ : Fin 1 => 0) 0 0 (fun _ => 0)
            (DataCov.scalar 1) 0)⁻¹ *ᵥ
            (fun k : Fin 1 => (fun _ : Fin 1 => (1 : ℝ)) k -
              procPlain.mean (fun _ : Fin 1 => 0) 0 0 (fun _ => 0) k - 0)))
        - (∑ a, Real.log (cho_factor
            (procPlain.totalCov (fun _ : Fin 1 => 0) 0 0 (fun _ => 0)
              (DataCov.scalar 1) 0) a a))
        - (1 / 2) * ((1 : ℕ) : ℝ) * Real.log (2 * Real.pi)) := by
  have hfin : ∀ a b : Fin 1,
      ((procPlain.cov (fun _ : Fin 1 => 0) 0 0 (fun _ => 0) a b).isFin = true) :=
    fun a b => rfl
  have htc : procPlain.totalCov (fun _ : Fin 1 => 0) 0 0 (fun _ => 0)
      (DataCov.scalar 1) 0 = (1 : Matrix (Fin 1) (Fin 1) ℝ) := by
    funext a b
    rw [Subsingleton.elim a b]
    show (0 : ℝ) + (1 • (1 : Matrix (Fin 1) (Fin 1) ℝ)) b b + 0 = (1 : Matrix (Fin 1) (Fin 1) ℝ) b b
    rw [Matrix.smul_apply, Matrix.one_apply_eq]
    norm_num
  have hch : ∃ L, IsCholeskyFactor L
      (procPlain.totalCov (fun _ : Fin 1 => 0) 0 0 (fun _ => 0)
        (DataCov.scalar 1) 0) := by
    refine ⟨1, ?_, ?_, ?_⟩
    · intro a b hab
      rw [Subsingleton.elim a b] at hab
      exact absurd hab (lt_irrefl b)
    · intro a
      rw [Matrix.one_apply_eq]
      exact one_pos
    · rw [Matrix.transpose_one, Matrix.mul_one, htc]
  exact ⟨hfin, hch,
    (C1_loglike_formula procPlain (fun _ : Fin 1 => 0) (fun _ => 1)
      (DataCov.scalar 1) 0 0 (fun _ => 0) 0 0 hfin hch).2.2.2.2⟩

end StarryProcessSpec

end
